import Mathlib

/-!
Shallow embedding of `ganttpy/gantt.py` (a Gantt-chart renderer built on
pandas timestamps and matplotlib), together with proofs about the claims
of the specification.

Modelling conventions:
* A pandas `Timestamp` is an `Int`: its nanosecond count since the epoch.
  A pandas `Timedelta` is likewise an `Int` nanosecond count.  Subtraction
  of timestamps and addition of a timedelta to a timestamp are exact
  integer operations, as in pandas (int64 arithmetic).
* `Timedelta.days` decomposes the nanosecond value with floor semantics
  (`pandas_timedelta_to_timedeltastruct` normalises negative values to a
  negative day count plus a positive sub-day remainder, e.g.
  `Timedelta('-1 days 2 min').days = -2`); it is modelled by `Int.fdiv`.
* Date strings are pre-parsed: `pd.to_datetime` is delegated parsing and is
  modelled as the identity on already-parsed nanosecond counts.  The
  numeric `duration` argument of `Task.__init__` is modelled as an integer
  count of days (`pd.Timedelta('{d} days')` is then exactly `d` days);
  float day counts go through decimal formatting and are out of scope.
* `ValueError`s raised by the code become an explicit error type, and the
  fallible operations return `Except`.
* The elements of the Python list handed to `gantt` may be arbitrary
  objects (the code checks `isinstance(task, Task)`), so the input list is
  a list of `Entry`, either a `Task` or some other object.
* `pd.date_range(start, end, freq)` is modelled for fixed-length
  frequency steps (such as `'D'`, `'7D'`), the step being a positive
  nanosecond count; calendar-dependent frequencies such as the default
  `'MS'` vary in step length and are outside the model.
* `strftime` labels are pure functions of the tick date and the format
  pattern, so a rendered tick label is modelled as the pair of both.
-/

namespace Ganttpy

/-- Nanoseconds per day; pandas timestamps and timedeltas count int64
nanoseconds. -/
def nsPerDay : Int := 86400000000000

/-- Model of pandas `Timedelta.days`: the whole-day component of a
nanosecond count, rounding toward negative infinity (floor), as the pandas
decomposition does for negative values. -/
def tdDays (td : Int) : Int := Int.fdiv td nsPerDay

/-- Module-level constant `DEFAULT_COLOR = 'tab:blue'`. -/
def DEFAULT_COLOR : String := "tab:blue"

/-- The `ValueError`s raised by `gantt.py`, one constructor per distinct
`raise` site. -/
inductive GanttError where
  /-- Error raised by `Task.__init__` when neither finish nor
  duration is given. -/
  | missingFinishAndDuration
  /-- Error raised by `gantt` when the task list is empty. -/
  | emptyTaskList
  /-- Error raised by `gantt` when an entry is not a `Task`. -/
  | entriesNotAllTasks
  /-- Error raised by `gantt` when `order` is neither `'start'` nor
  `'listed'`. -/
  | invalidOrder
deriving Repr, DecidableEq

/-- The `Task` record: name, start, finish and duration (nanosecond
counts) and a plot color. -/
structure Task where
  name : String
  start : Int
  finish : Int
  duration : Int
  color : String
deriving Repr, DecidableEq

/-- Model of `Task.__init__`.  `start` and `finish?` are pre-parsed
timestamps (`pd.to_datetime` modelled as identity), `duration?` an integer
number of days.  If a finish date is given the duration is derived as
`finish - start` (a supplied duration is ignored); otherwise, if a
duration is given, the finish is derived as `start + duration`; otherwise
a `ValueError` is raised.  `self.color = color or DEFAULT_COLOR` replaces
a falsy (empty) color string by the default. -/
def Task.init (name : String) (start : Int) (finish? : Option Int := none)
    (duration? : Option Int := none) (color : String := DEFAULT_COLOR) :
    Except GanttError Task :=
  match finish? with
  | some f =>
    .ok { name := name, start := start, finish := f, duration := f - start,
          color := if color = "" then DEFAULT_COLOR else color }
  | none =>
    match duration? with
    | some d =>
      .ok { name := name, start := start, finish := start + d * nsPerDay,
            duration := d * nsPerDay,
            color := if color = "" then DEFAULT_COLOR else color }
    | none => .error .missingFinishAndDuration

/-- An element of the Python list passed to `gantt`: either a `Task`
instance or some other object (rejected by the `isinstance` check). -/
inductive Entry where
  | task : Task → Entry
  | other : String → Entry
deriving Repr, DecidableEq

/-- Whether an entry passes `isinstance(task, Task)`. -/
def Entry.isTask : Entry → Bool
  | .task _ => true
  | .other _ => false

/-- Extract the task from an entry, when it is one. -/
def Entry.getTask? : Entry → Option Task
  | .task t => some t
  | .other _ => none

/-- Input validation of `gantt` (the `if not tasks` emptiness check and
the `isinstance` loop): empty lists and lists containing a non-`Task`
entry are rejected, otherwise the list of tasks is returned. -/
def checkTasks (entries : List Entry) : Except GanttError (List Task) :=
  if entries.isEmpty then .error .emptyTaskList
  else if entries.all Entry.isTask then .ok (entries.filterMap Entry.getTask?)
  else .error .entriesNotAllTasks

/-- The comparison used by `sorted(tasks, key=lambda task: task.start)`. -/
def startLE (a b : Task) : Bool := decide (a.start ≤ b.start)

/-- The `order` dispatch of `gantt`: `'start'` sorts ascending by start
date with Python's stable sort (modelled by the stable `List.mergeSort`),
`'listed'` keeps the input order, anything else raises a `ValueError`. -/
def orderTasks (tasks : List Task) (order : String) :
    Except GanttError (List Task) :=
  if order = "start" then .ok (tasks.mergeSort startLE)
  else if order = "listed" then .ok tasks
  else .error .invalidOrder

/-- The configuration parameters of `gantt`, with the source's defaults.
`begin_date` is a pre-parsed timestamp, `date_freq` a fixed-length
frequency step in nanoseconds (the source default `'MS'` is
calendar-dependent and outside the fixed-step model; a week-long step
stands in for it). -/
structure Options where
  order : String := "start"
  begin_date : Option Int := none
  figsize : Int × Int := (10, 4)
  figtitle : Option String := none
  date_freq : Int := 7 * nsPerDay
  date_format : String := "%b %Y"
  date_rotation : Int := 0
  fontsize : Int := 10
  show_durations : Bool := false
  duration_textcolor : String := "w"
  fname : Option String := none
  return_fig : Bool := false
deriving Repr, DecidableEq

/-- Model of `min(task.start for task in tasks)`, as a left fold; the `0` default
for the empty list is never reached (the list was checked non-empty). -/
def minStart : List Task → Int
  | [] => 0
  | t :: ts => ts.foldl (fun m u => min m u.start) t.start

/-- Model of `max(task.finish for task in tasks)`, as a left fold; the `0` default
for the empty list is never reached. -/
def maxFinish : List Task → Int
  | [] => 0
  | t :: ts => ts.foldl (fun m u => max m u.finish) t.finish

/-- The reference date of the time axis: `begin_date` when given, else the
earliest task start date. -/
def refDate (opts : Options) (tasks : List Task) : Int :=
  match opts.begin_date with
  | none => minStart tasks
  | some b => b

/-- Model of `pd.date_range(start, end, freq)` for a fixed-length
frequency step: the dates `start, start + step, ...` not exceeding `stop`.
Empty when `stop < start`; meaningful only for `0 < step` (pandas rejects
nonpositive frequencies). -/
def dateRange (start stop step : Int) : List Int :=
  if _h : 0 < step ∧ start ≤ stop then
    (List.range (((stop - start).fdiv step).toNat + 1)).map
      (fun i => start + step * (i : Int))
  else []

/-- One horizontal bar as passed to `ax.barh`: the row index `y`, the
left edge and width in whole days, and the fill color (the edge color and
line width are fixed constants). -/
structure Bar where
  y : Nat
  left : Int
  width : Int
  color : String
deriving Repr, DecidableEq

/-- Everything `gantt` draws on the axes: the bars, the y ticks and their
labels, the title, the x limits, the x tick positions, the x tick labels
(the tick date paired with the `strftime` pattern that formats it), the
duration annotations (row, day offset of the bar's left edge, text) and
the optional save path. -/
structure Output where
  bars : List Bar
  yticks : List Nat
  ylabels : List String
  title : Option String
  xlim : Int × Int
  xticks : List Int
  xlabels : List (Int × String)
  texts : List (Nat × Int × String)
  savedTo : Option String
deriving Repr, DecidableEq

/-- The drawing phase of `gantt`, applied to the already validated and
ordered task list: the loop over `enumerate(reversed(tasks))` emits one
bar per task at row `idx` with left edge `(task.start - begin_date).days`
and width `task.duration.days`; then y labels, x limits
`(0, (end_date - begin_date).days)` and the date ticks are set. -/
def buildOutput (tasks : List Task) (opts : Options) : Output :=
  let begin_date := refDate opts tasks
  let end_date := maxFinish tasks
  let rev := tasks.reverse
  { bars := rev.enum.map (fun p =>
      { y := p.1, left := tdDays (p.2.start - begin_date),
        width := tdDays p.2.duration, color := p.2.color })
    yticks := rev.enum.map (fun p => p.1)
    ylabels := rev.map Task.name
    title := opts.figtitle
    xlim := (0, tdDays (end_date - begin_date))
    xticks := (dateRange begin_date end_date opts.date_freq).map
      (fun tt => tdDays (tt - begin_date))
    xlabels := (dateRange begin_date end_date opts.date_freq).map
      (fun tt => (tt, opts.date_format))
    texts := if opts.show_durations then
        rev.enum.map (fun p =>
          (p.1, tdDays (p.2.start - begin_date),
            toString (tdDays p.2.duration) ++ " days"))
      else []
    savedTo := opts.fname }

/-- The pipeline of `gantt` after input validation: order dispatch, then
drawing. -/
def ganttBody (tasks : List Task) (opts : Options) :
    Except GanttError Output :=
  match orderTasks tasks opts.order with
  | .error e => .error e
  | .ok ordered => .ok (buildOutput ordered opts)

/-- Model of `gantt(tasks, ...)`, with the caller's list threaded as
explicit state: the second component is the caller's `tasks` object after
the call.  The body only reads the list — `sorted` returns a fresh list
that is bound to the local variable — so the final state is the input
list. -/
def ganttSt (entries : List Entry) (opts : Options) :
    Except GanttError Output × List Entry :=
  (match checkTasks entries with
   | .error e => .error e
   | .ok tasks => ganttBody tasks opts,
   entries)

/-- Model of `gantt(tasks, ...)`: the value-level result. -/
def gantt (entries : List Entry) (opts : Options) :
    Except GanttError Output :=
  (ganttSt entries opts).1

/-- The row sequence `gantt` lays out, top to bottom: the validated input
list in the requested order (the drawing loop then traverses it in
reverse, so index `0` of this list is the top row). -/
def renderOrder (entries : List Entry) (opts : Options) :
    Except GanttError (List Task) :=
  match checkTasks entries with
  | .error e => .error e
  | .ok tasks => orderTasks tasks opts.order

/-- Whether a call returned normally rather than raising. -/
def isOk {ε α : Type _} : Except ε α → Bool
  | .ok _ => true
  | .error _ => false

/-! ## Sample data used by witnesses and counterexamples -/

/-- A one-day task starting at the epoch. -/
def taskA : Task :=
  { name := "A", start := 0, finish := nsPerDay, duration := nsPerDay,
    color := "tab:blue" }

/-- A two-day task starting one day after the epoch. -/
def taskB : Task :=
  { name := "B", start := nsPerDay, finish := 3 * nsPerDay,
    duration := 2 * nsPerDay, color := "tab:orange" }

/-- A task with the same start date as `taskA` but a different name. -/
def taskC : Task :=
  { name := "C", start := 0, finish := 2 * nsPerDay, duration := 2 * nsPerDay,
    color := "tab:green" }

/-! ## Helper lemmas -/

theorem foldl_min_le_init (ts : List Task) (m : Int) :
    ts.foldl (fun a u => min a u.start) m ≤ m := by
  induction ts generalizing m with
  | nil => simp
  | cons t ts ih =>
    simp only [List.foldl_cons]
    exact le_trans (ih _) (min_le_left _ _)

theorem foldl_min_le_of_mem {t : Task} {ts : List Task} (h : t ∈ ts) (m : Int) :
    ts.foldl (fun a u => min a u.start) m ≤ t.start := by
  induction ts generalizing m with
  | nil => cases h
  | cons u ts ih =>
    simp only [List.foldl_cons]
    rcases List.mem_cons.mp h with rfl | h'
    · exact le_trans (foldl_min_le_init ts _) (min_le_right _ _)
    · exact ih h' _

theorem foldl_min_eq_init_or_mem (ts : List Task) (m : Int) :
    ts.foldl (fun a u => min a u.start) m = m ∨
      ∃ t ∈ ts, ts.foldl (fun a u => min a u.start) m = t.start := by
  induction ts generalizing m with
  | nil => exact Or.inl rfl
  | cons u ts ih =>
    simp only [List.foldl_cons]
    rcases ih (min m u.start) with h | ⟨t, ht, h⟩
    · rcases min_choice m u.start with hm | hm
      · exact Or.inl (h.trans hm)
      · exact Or.inr ⟨u, List.mem_cons_self u ts, h.trans hm⟩
    · exact Or.inr ⟨t, List.mem_cons_of_mem u ht, h⟩

theorem minStart_le {t : Task} {ts : List Task} (h : t ∈ ts) :
    minStart ts ≤ t.start := by
  cases ts with
  | nil => cases h
  | cons u us =>
    rcases List.mem_cons.mp h with rfl | h'
    · exact foldl_min_le_init us t.start
    · exact foldl_min_le_of_mem h' _

theorem minStart_mem {ts : List Task} (h : ts ≠ []) :
    ∃ t ∈ ts, minStart ts = t.start := by
  cases ts with
  | nil => exact absurd rfl h
  | cons u us =>
    rcases foldl_min_eq_init_or_mem us u.start with h' | ⟨t, ht, h'⟩
    · exact ⟨u, List.mem_cons_self u us, h'⟩
    · exact ⟨t, List.mem_cons_of_mem u ht, h'⟩

theorem minStart_perm {ts ts' : List Task} (hp : ts.Perm ts') (h : ts ≠ []) :
    minStart ts = minStart ts' := by
  have h' : ts' ≠ [] := by
    intro e
    exact h (List.Perm.eq_nil (e ▸ hp))
  obtain ⟨t, ht, e⟩ := minStart_mem h
  obtain ⟨t', ht', e'⟩ := minStart_mem h'
  apply le_antisymm
  · rw [e']
    exact minStart_le (hp.mem_iff.mpr ht')
  · rw [e]
    exact minStart_le (hp.mem_iff.mp ht)

theorem foldl_max_init_le (ts : List Task) (m : Int) :
    m ≤ ts.foldl (fun a u => max a u.finish) m := by
  induction ts generalizing m with
  | nil => simp
  | cons t ts ih =>
    simp only [List.foldl_cons]
    exact le_trans (le_max_left _ _) (ih _)

theorem foldl_max_of_mem_le {t : Task} {ts : List Task} (h : t ∈ ts) (m : Int) :
    t.finish ≤ ts.foldl (fun a u => max a u.finish) m := by
  induction ts generalizing m with
  | nil => cases h
  | cons u ts ih =>
    simp only [List.foldl_cons]
    rcases List.mem_cons.mp h with rfl | h'
    · exact le_trans (le_max_right _ _) (foldl_max_init_le ts _)
    · exact ih h' _

theorem foldl_max_eq_init_or_mem (ts : List Task) (m : Int) :
    ts.foldl (fun a u => max a u.finish) m = m ∨
      ∃ t ∈ ts, ts.foldl (fun a u => max a u.finish) m = t.finish := by
  induction ts generalizing m with
  | nil => exact Or.inl rfl
  | cons u ts ih =>
    simp only [List.foldl_cons]
    rcases ih (max m u.finish) with h | ⟨t, ht, h⟩
    · rcases max_choice m u.finish with hm | hm
      · exact Or.inl (h.trans hm)
      · exact Or.inr ⟨u, List.mem_cons_self u ts, h.trans hm⟩
    · exact Or.inr ⟨t, List.mem_cons_of_mem u ht, h⟩

theorem le_maxFinish {t : Task} {ts : List Task} (h : t ∈ ts) :
    t.finish ≤ maxFinish ts := by
  cases ts with
  | nil => cases h
  | cons u us =>
    rcases List.mem_cons.mp h with rfl | h'
    · exact foldl_max_init_le us t.finish
    · exact foldl_max_of_mem_le h' _

theorem maxFinish_mem {ts : List Task} (h : ts ≠ []) :
    ∃ t ∈ ts, maxFinish ts = t.finish := by
  cases ts with
  | nil => exact absurd rfl h
  | cons u us =>
    rcases foldl_max_eq_init_or_mem us u.finish with h' | ⟨t, ht, h'⟩
    · exact ⟨u, List.mem_cons_self u us, h'⟩
    · exact ⟨t, List.mem_cons_of_mem u ht, h'⟩

theorem maxFinish_perm {ts ts' : List Task} (hp : ts.Perm ts') (h : ts ≠ []) :
    maxFinish ts = maxFinish ts' := by
  have h' : ts' ≠ [] := by
    intro e
    exact h (List.Perm.eq_nil (e ▸ hp))
  obtain ⟨t, ht, e⟩ := maxFinish_mem h
  obtain ⟨t', ht', e'⟩ := maxFinish_mem h'
  apply le_antisymm
  · rw [e]
    exact le_maxFinish (hp.mem_iff.mp ht)
  · rw [e']
    exact le_maxFinish (hp.mem_iff.mpr ht')

theorem refDate_perm {ts ts' : List Task} (opts : Options) (hp : ts.Perm ts')
    (h : ts ≠ []) : refDate opts ts = refDate opts ts' := by
  unfold refDate
  cases opts.begin_date with
  | none => exact minStart_perm hp h
  | some b => rfl

/-- Validation succeeds on a non-empty list of genuine tasks and returns
exactly those tasks. -/
theorem checkTasks_map_task (ts : List Task) (h : ts ≠ []) :
    checkTasks (ts.map Entry.task) = .ok ts := by
  unfold checkTasks
  rw [if_neg, if_pos]
  · congr 1
    rw [List.filterMap_map]
    have hc : (Entry.getTask? ∘ Entry.task) = some := rfl
    rw [hc]
    exact List.filterMap_some ts
  · simp [List.all_eq_true, Entry.isTask]
  · simp [List.isEmpty_iff, h]

/-- The ordering dispatch returns a permutation of its input. -/
theorem orderTasks_perm {ts ordered : List Task} {order : String}
    (h : orderTasks ts order = .ok ordered) : ordered.Perm ts := by
  unfold orderTasks at h
  split at h
  · cases h
    exact List.mergeSort_perm ts startLE
  · split at h
    · cases h
      exact List.Perm.refl ts
    · cases h

/-- The transitivity of the sort comparison. -/
theorem startLE_trans (a b c : Task) (hab : startLE a b) (hbc : startLE b c) :
    startLE a c := by
  simp only [startLE, decide_eq_true_eq] at *
  omega

/-- The totality of the sort comparison. -/
theorem startLE_total (a b : Task) : startLE a b || startLE b a := by
  simp only [startLE]
  rcases le_total a.start b.start with h | h <;> simp [h]

/-- Stepping lemma: after successful validation, `gantt` runs its body. -/
theorem gantt_eq_ganttBody {entries : List Entry} {tasks : List Task}
    (opts : Options) (hc : checkTasks entries = .ok tasks) :
    gantt entries opts = ganttBody tasks opts := by
  unfold gantt ganttSt
  rw [hc]

/-- Stepping lemma: after successful ordering, the body draws the chart. -/
theorem ganttBody_eq_ok {tasks ordered : List Task} {opts : Options}
    (h : orderTasks tasks opts.order = .ok ordered) :
    ganttBody tasks opts = .ok (buildOutput ordered opts) := by
  unfold ganttBody
  rw [h]

/-- Stepping lemma: after successful validation, `renderOrder` is the
ordering dispatch. -/
theorem renderOrder_eq {entries : List Entry} {opts : Options}
    {tasks : List Task} (hc : checkTasks entries = .ok tasks) :
    renderOrder entries opts = orderTasks tasks opts.order := by
  unfold renderOrder
  rw [hc]

/-- With `order = 'start'` the ordering dispatch is the stable sort. -/
theorem orderTasks_start (tasks : List Task) :
    orderTasks tasks "start" = .ok (tasks.mergeSort startLE) := by
  unfold orderTasks
  rw [if_pos rfl]

/-- With `order = 'listed'` the ordering dispatch keeps the input order. -/
theorem orderTasks_listed (tasks : List Task) :
    orderTasks tasks "listed" = .ok tasks := rfl

/-- Inversion of a successful render over genuine tasks: the output is
`buildOutput` of some ordering of the input. -/
theorem gantt_ok_inv {ts : List Task} {opts : Options} {o : Output}
    (hg : gantt (ts.map Entry.task) opts = .ok o) :
    ts ≠ [] ∧ ∃ ordered, orderTasks ts opts.order = .ok ordered ∧
      ordered.Perm ts ∧ o = buildOutput ordered opts := by
  have hne : ts ≠ [] := by
    intro e
    subst e
    simp [gantt, ganttSt, checkTasks] at hg
  refine ⟨hne, ?_⟩
  unfold gantt ganttSt ganttBody at hg
  rw [checkTasks_map_task ts hne] at hg
  simp only at hg
  cases horder : orderTasks ts opts.order with
  | error e =>
    rw [horder] at hg
    cases hg
  | ok ordered =>
    rw [horder] at hg
    cases hg
    exact ⟨ordered, rfl, orderTasks_perm horder, rfl⟩

/-! ## Theorems about the claims -/

/-- C1: every successfully constructed `Task` satisfies
`finish = start + duration` exactly; when a finish date is supplied the
derived duration is `finish - start`, and when only a numeric day count is
supplied the derived finish is `start + duration`. -/
theorem task_finish_start_duration_invariant (name : String) (start : Int)
    (finish? duration? : Option Int) (color : String) (t : Task)
    (h : Task.init name start finish? duration? color = .ok t) :
    t.finish = t.start + t.duration ∧
    (∀ f, finish? = some f → t.duration = f - start ∧ t.finish = f) ∧
    (∀ d, finish? = none → duration? = some d →
      t.duration = d * nsPerDay ∧ t.finish = start + d * nsPerDay) := by
  cases finish? with
  | some f =>
    simp only [Task.init] at h
    cases h
    refine ⟨by simp [Int.add_sub_cancel], ?_, ?_⟩
    · intro f' hf'
      cases hf'
      exact ⟨rfl, rfl⟩
    · intro d hnone
      cases hnone
  | none =>
    cases duration? with
    | some d =>
      simp only [Task.init] at h
      cases h
      refine ⟨rfl, ?_, ?_⟩
      · intro f hf
        cases hf
      · intro d' _ hd'
        cases hd'
        exact ⟨rfl, rfl⟩
    | none => simp [Task.init] at h

/-- Witness for C1: the task built from start `0` and finish one day
later satisfies the invariant, with the derived duration `finish - start`. -/
theorem task_finish_start_duration_invariant_witness :
    taskA.finish = taskA.start + taskA.duration ∧
    taskA.duration = nsPerDay - 0 ∧ taskA.finish = nsPerDay := by
  have h : Task.init "A" 0 (some nsPerDay) none "tab:blue" = .ok taskA := rfl
  obtain ⟨h1, h2, -⟩ :=
    task_finish_start_duration_invariant "A" 0 (some nsPerDay) none "tab:blue" taskA h
  exact ⟨h1, (h2 nsPerDay rfl).1, (h2 nsPerDay rfl).2⟩

/-- C6: constructing a `Task` with neither a finish date nor a duration
always raises the `ValueError`, for every name, start date and color. -/
theorem task_missing_finish_duration_error (name : String) (start : Int)
    (color : String) :
    Task.init name start none none color = .error .missingFinishAndDuration := rfl

/-- C10: when both a finish date and a duration are supplied, the finish
date wins — the call behaves exactly like the call without the duration
argument, storing `finish` as given and `duration = finish - start`, with
no error raised. -/
theorem task_finish_overrides_duration (name : String) (start f d : Int)
    (color : String) :
    Task.init name start (some f) (some d) color =
      Task.init name start (some f) none color ∧
    ∃ t, Task.init name start (some f) (some d) color = .ok t ∧
      t.finish = f ∧ t.duration = f - start := ⟨rfl, _, rfl, rfl, rfl⟩

/-- C8: `gantt` never mutates the caller's task list: the list threaded as
state through the call comes back unchanged (sorting builds a copy). -/
theorem gantt_preserves_input (entries : List Entry) (opts : Options) :
    (ganttSt entries opts).2 = entries := rfl

/-- C9: `gantt` is deterministic — two successful calls on the same task
list and options agree on every bar, tick position and tick label. -/
theorem gantt_deterministic (entries : List Entry) (opts : Options)
    (o₁ o₂ : Output)
    (h₁ : gantt entries opts = .ok o₁) (h₂ : gantt entries opts = .ok o₂) :
    o₁.bars = o₂.bars ∧ o₁.xticks = o₂.xticks ∧ o₁.xlabels = o₂.xlabels ∧
      o₁ = o₂ := by
  rw [h₁] at h₂
  cases h₂
  exact ⟨rfl, rfl, rfl, rfl⟩

/-- Witness for C9: a concrete render of one task, compared with itself. -/
theorem gantt_deterministic_witness :
    (buildOutput [taskA] { order := "listed" }).bars =
      (buildOutput [taskA] { order := "listed" }).bars ∧
    (buildOutput [taskA] { order := "listed" }).xticks =
      (buildOutput [taskA] { order := "listed" }).xticks ∧
    (buildOutput [taskA] { order := "listed" }).xlabels =
      (buildOutput [taskA] { order := "listed" }).xlabels ∧
    buildOutput [taskA] { order := "listed" } =
      buildOutput [taskA] { order := "listed" } := by
  have h : gantt [Entry.task taskA] { order := "listed" } =
      .ok (buildOutput [taskA] { order := "listed" }) := rfl
  exact gantt_deterministic _ _ _ _ h h

/-- C3: the horizontal axis extent is the whole-day span from the
reference date (the given `begin_date`, else the earliest start) to the
latest finish: `xlim = (0, (max finish - reference).days)`. -/
theorem axis_extent_eq (ts : List Task) (opts : Options) (o : Output)
    (hg : gantt (ts.map Entry.task) opts = .ok o) :
    o.xlim = (0, tdDays (maxFinish ts - refDate opts ts)) := by
  obtain ⟨hne, ordered, horder, hperm, rfl⟩ := gantt_ok_inv hg
  have hne' : ordered ≠ [] := by
    intro e
    exact hne (((e ▸ hperm : ([] : List Task).Perm ts)).symm.eq_nil)
  show (buildOutput ordered opts).xlim = _
  unfold buildOutput
  simp only
  rw [maxFinish_perm hperm hne', refDate_perm opts hperm hne']

/-- Witness for C3: one one-day task starting at the epoch; the extent is
one day. -/
theorem axis_extent_eq_witness :
    (buildOutput [taskA] { order := "listed" }).xlim =
      (0, tdDays (maxFinish [taskA] - refDate { order := "listed" } [taskA])) := by
  have h : gantt [Entry.task taskA] { order := "listed" } =
      .ok (buildOutput [taskA] { order := "listed" }) := rfl
  exact axis_extent_eq [taskA] { order := "listed" } _ h

/-- C4 (amended): each rendered bar's left edge is the day offset of its
task's start from the reference date and its width the day count of the
task's duration, both by floor division — fractional days round toward
negative infinity, not toward zero. -/
theorem bar_geometry_floor (ts : List Task) (opts : Options) (o : Output)
    (hg : gantt (ts.map Entry.task) opts = .ok o) (t : Task) (ht : t ∈ ts) :
    ∃ b ∈ o.bars, b.left = Int.fdiv (t.start - refDate opts ts) nsPerDay ∧
      b.width = Int.fdiv t.duration nsPerDay ∧ b.color = t.color := by
  obtain ⟨hne, ordered, horder, hperm, rfl⟩ := gantt_ok_inv hg
  have hne' : ordered ≠ [] := by
    intro e
    exact hne (((e ▸ hperm : ([] : List Task).Perm ts)).symm.eq_nil)
  have ht' : t ∈ ordered.reverse := by
    rw [List.mem_reverse]
    exact hperm.mem_iff.mpr ht
  obtain ⟨i, hi, hget⟩ := List.mem_iff_getElem.mp ht'
  have hlen : i < ((buildOutput ordered opts).bars).length := by
    simpa [buildOutput] using hi
  refine ⟨(buildOutput ordered opts).bars[i], List.getElem_mem hlen, ?_⟩
  have hbar : (buildOutput ordered opts).bars[i] =
      { y := i, left := tdDays (t.start - refDate opts ordered),
        width := tdDays t.duration, color := t.color } := by
    simp [buildOutput, List.getElem_map, List.getElem_enum, hget]
  rw [hbar, refDate_perm opts hperm hne']
  exact ⟨rfl, rfl, rfl⟩

/-- Witness for C4 (amended): the sole task of a concrete render. -/
theorem bar_geometry_floor_witness :
    ∃ b ∈ (buildOutput [taskA] { order := "listed" }).bars,
      b.left = Int.fdiv (taskA.start -
        refDate { order := "listed" } [taskA]) nsPerDay ∧
      b.width = Int.fdiv taskA.duration nsPerDay ∧ b.color = taskA.color := by
  have h : gantt [Entry.task taskA] { order := "listed" } =
      .ok (buildOutput [taskA] { order := "listed" }) := rfl
  exact bar_geometry_floor [taskA] { order := "listed" } _ h taskA
    (List.mem_singleton.mpr rfl)

/-- Counterexample to C4 as stated: with `begin_date` at noon of day 0, a
task starting at midnight of day 0 lies 12 hours before the reference
date; the code floors the offset to `-1` day, while truncation toward
zero would give `0`. -/
theorem bar_left_not_trunc_cex :
    (gantt [Entry.task taskA]
        { order := "listed", begin_date := some 43200000000000 }).map
      (fun o => o.bars.map Bar.left) = .ok [-1] ∧
    Int.tdiv (taskA.start - 43200000000000) nsPerDay = 0 ∧
    (-1 : Int) ≠ (0 : Int) := by
  refine ⟨rfl, rfl, by decide⟩

/-- C5 (amended): `gantt` returns normally exactly when the entry list is
non-empty, every entry is a `Task`, and the order is one of the
recognized values — which are `'listed'` and `'start'` only (`'time'` is
not recognized and raises). -/
theorem gantt_ok_iff (entries : List Entry) (opts : Options)
    (_hf : 0 < opts.date_freq) :
    isOk (gantt entries opts) = true ↔
      (entries ≠ [] ∧ entries.all Entry.isTask = true ∧
        (opts.order = "start" ∨ opts.order = "listed")) := by
  constructor
  · intro ho
    cases hc : checkTasks entries with
    | error e =>
      unfold gantt ganttSt at ho
      rw [hc] at ho
      cases ho
    | ok tasks =>
      have hb := gantt_eq_ganttBody opts hc
      rw [hb] at ho
      unfold checkTasks at hc
      by_cases hemp : entries.isEmpty
      · rw [if_pos hemp] at hc
        cases hc
      · rw [if_neg hemp] at hc
        by_cases hall : entries.all Entry.isTask
        · refine ⟨by simpa [List.isEmpty_iff] using hemp, hall, ?_⟩
          by_cases h1 : opts.order = "start"
          · exact Or.inl h1
          · by_cases h2 : opts.order = "listed"
            · exact Or.inr h2
            · unfold ganttBody orderTasks at ho
              rw [if_neg h1, if_neg h2] at ho
              cases ho
        · rw [if_neg hall] at hc
          cases hc
  · rintro ⟨hne, hall, horder⟩
    have hc : checkTasks entries = .ok (entries.filterMap Entry.getTask?) := by
      unfold checkTasks
      rw [if_neg (by simpa [List.isEmpty_iff] using hne), if_pos hall]
    rw [gantt_eq_ganttBody opts hc]
    rcases horder with h | h
    · rw [ganttBody_eq_ok (h ▸ orderTasks_start _)]
      rfl
    · rw [ganttBody_eq_ok (h ▸ orderTasks_listed _)]
      rfl

/-- Witness for C5 (amended): a concrete one-task render with
`order = 'listed'` succeeds, matching the right-hand side. -/
theorem gantt_ok_iff_witness :
    isOk (gantt [Entry.task taskA] { order := "listed" }) = true ↔
      ([Entry.task taskA] ≠ [] ∧
        [Entry.task taskA].all Entry.isTask = true ∧
        (({ order := "listed" } : Options).order = "start" ∨
          ({ order := "listed" } : Options).order = "listed")) :=
  gantt_ok_iff [Entry.task taskA] { order := "listed" } (by decide)

/-- Counterexample to C5 as stated: `order = 'time'` is not recognized —
the render of a perfectly valid task list raises the order
`ValueError`. -/
theorem gantt_order_time_cex :
    gantt [Entry.task taskA] { order := "time" } =
      .error GanttError.invalidOrder := rfl

/-- C7: with `order = 'listed'` the input order is preserved up to the
bottom-to-top row convention: the task at input position `i` of `n` is
drawn at row index `n - 1 - i` (the loop enumerates the reversed list),
so the listed order reads top to bottom. -/
theorem render_listed_row_indices (ts : List Task) (opts : Options)
    (o : Output) (ho : opts.order = "listed")
    (hg : gantt (ts.map Entry.task) opts = .ok o) :
    o.bars.length = ts.length ∧
    ∀ i (hi : i < ts.length) (hb : ts.length - 1 - i < o.bars.length),
      o.bars.get ⟨ts.length - 1 - i, hb⟩ =
        { y := ts.length - 1 - i,
          left := tdDays ((ts.get ⟨i, hi⟩).start - refDate opts ts),
          width := tdDays (ts.get ⟨i, hi⟩).duration,
          color := (ts.get ⟨i, hi⟩).color } ∧
      o.ylabels[ts.length - 1 - i]? = some (ts.get ⟨i, hi⟩).name := by
  obtain ⟨hne, ordered, horder, hperm, rfl⟩ := gantt_ok_inv hg
  rw [ho, orderTasks_listed ts] at horder
  cases horder
  constructor
  · simp [buildOutput]
  · intro i hi hb
    have hidx : ts.length - 1 - (ts.length - 1 - i) = i := by omega
    constructor
    · simp only [buildOutput, List.get_eq_getElem]
      rw [List.getElem_map]
      · simp only [List.getElem_enum, List.getElem_reverse, hidx]
    · simp only [buildOutput]
      have hb' : ts.length - 1 - i < (ts.reverse.map Task.name).length := by
        simp only [List.length_map, List.length_reverse]
        omega
      rw [List.getElem?_eq_getElem hb']
      rw [List.getElem_map]
      · simp only [List.getElem_reverse, hidx, List.get_eq_getElem]

/-- Witness for C7: a concrete two-task render with `order = 'listed'`;
the first-listed task occupies row 1 (the top), the second row 0. -/
theorem render_listed_row_indices_witness :
    (buildOutput [taskA, taskB] { order := "listed" }).bars.length =
      ([taskA, taskB] : List Task).length ∧
    ∀ i (hi : i < ([taskA, taskB] : List Task).length)
      (hb : ([taskA, taskB] : List Task).length - 1 - i <
        (buildOutput [taskA, taskB] { order := "listed" }).bars.length),
      (buildOutput [taskA, taskB] { order := "listed" }).bars.get
          ⟨([taskA, taskB] : List Task).length - 1 - i, hb⟩ =
        { y := ([taskA, taskB] : List Task).length - 1 - i,
          left := tdDays ((([taskA, taskB] : List Task).get ⟨i, hi⟩).start -
            refDate { order := "listed" } [taskA, taskB]),
          width := tdDays ((([taskA, taskB] : List Task).get ⟨i, hi⟩).duration),
          color := (([taskA, taskB] : List Task).get ⟨i, hi⟩).color } ∧
      (buildOutput [taskA, taskB] { order := "listed" }).ylabels[
          ([taskA, taskB] : List Task).length - 1 - i]? =
        some ((([taskA, taskB] : List Task).get ⟨i, hi⟩).name) := by
  have h : gantt [Entry.task taskA, Entry.task taskB] { order := "listed" } =
      .ok (buildOutput [taskA, taskB] { order := "listed" }) := rfl
  exact render_listed_row_indices [taskA, taskB] { order := "listed" } _ rfl h

/-- C2: with `order = 'start'` the row sequence is the input list sorted
ascending by start date; the sort is stable — for every start date the
subsequence of tasks having it is exactly as in the input — and the
output's y labels are this row sequence bottom to top. -/
theorem render_start_sorted_stable (ts rows : List Task) (opts : Options)
    (o : Output) (hne : ts ≠ []) (ho : opts.order = "start")
    (hr : renderOrder (ts.map Entry.task) opts = .ok rows)
    (hg : gantt (ts.map Entry.task) opts = .ok o) :
    rows.Perm ts ∧
    rows.Pairwise (fun a b => a.start ≤ b.start) ∧
    (∀ s : Int, rows.filter (fun t => decide (t.start = s)) =
      ts.filter (fun t => decide (t.start = s))) ∧
    o.ylabels = (rows.map Task.name).reverse := by
  have hrows : rows = ts.mergeSort startLE := by
    rw [renderOrder_eq (checkTasks_map_task ts hne), ho, orderTasks_start] at hr
    cases hr
    rfl
  subst hrows
  refine ⟨List.mergeSort_perm ts startLE, ?_, ?_, ?_⟩
  · have hs := List.sorted_mergeSort startLE_trans startLE_total ts
    exact hs.imp (fun h => of_decide_eq_true h)
  · intro s
    have hsub : List.Sublist (ts.filter (fun t => decide (t.start = s))) ts :=
      List.filter_sublist ts
    have hpw : (ts.filter (fun t => decide (t.start = s))).Pairwise
        (fun a b => startLE a b = true) := by
      apply List.pairwise_of_forall_mem_list
      intro a ha b hb
      have ha' : a.start = s := by simpa using (List.mem_filter.mp ha).2
      have hb' : b.start = s := by simpa using (List.mem_filter.mp hb).2
      simp [startLE, ha', hb']
    have hsl : List.Sublist (ts.filter (fun t => decide (t.start = s)))
        (ts.mergeSort startLE) :=
      List.sublist_mergeSort startLE_trans startLE_total hpw hsub
    have hsl2 := hsl.filter (fun t => decide (t.start = s))
    rw [List.filter_eq_self.mpr (fun a ha => (List.mem_filter.mp ha).2)] at hsl2
    have hlen : ((ts.mergeSort startLE).filter
          (fun t => decide (t.start = s))).length =
        (ts.filter (fun t => decide (t.start = s))).length :=
      ((List.mergeSort_perm ts startLE).filter _).length_eq
    exact (hsl2.eq_of_length hlen.symm).symm
  · obtain ⟨hne2, ordered, horder, hperm, rfl⟩ := gantt_ok_inv hg
    rw [ho, orderTasks_start] at horder
    cases horder
    simp [buildOutput]

/-- Witness for C2: two tasks with equal start dates, rendered with
`order = 'start'`; the sort keeps their listed order. -/
theorem render_start_sorted_stable_witness :
    ([taskA, taskC] : List Task).Perm [taskA, taskC] ∧
    ([taskA, taskC] : List Task).Pairwise (fun a b => a.start ≤ b.start) ∧
    ([taskA, taskC] : List Task).filter (fun t => decide (t.start = 0)) =
      ([taskA, taskC] : List Task).filter (fun t => decide (t.start = 0)) ∧
    (buildOutput [taskA, taskC] { order := "start" }).ylabels =
      (([taskA, taskC] : List Task).map Task.name).reverse := by
  have hms : ([taskA, taskC] : List Task).mergeSort startLE = [taskA, taskC] :=
    List.mergeSort_of_sorted (by simp [List.pairwise_cons, startLE, taskA, taskC])
  have hord : orderTasks [taskA, taskC] "start" = .ok [taskA, taskC] := by
    rw [orderTasks_start, hms]
  have hr : renderOrder [Entry.task taskA, Entry.task taskC]
      { order := "start" } = .ok [taskA, taskC] := by
    rw [renderOrder_eq (show checkTasks [Entry.task taskA, Entry.task taskC] =
      .ok [taskA, taskC] from rfl)]
    exact hord
  have hg : gantt [Entry.task taskA, Entry.task taskC] { order := "start" } =
      .ok (buildOutput [taskA, taskC] { order := "start" }) := by
    rw [gantt_eq_ganttBody { order := "start" }
      (show checkTasks [Entry.task taskA, Entry.task taskC] =
        .ok [taskA, taskC] from rfl)]
    exact ganttBody_eq_ok hord
  obtain ⟨h1, h2, h3, h4⟩ := render_start_sorted_stable [taskA, taskC]
    [taskA, taskC] { order := "start" } _ (List.cons_ne_nil _ _) rfl hr hg
  exact ⟨h1, h2, h3 0, h4⟩

end Ganttpy
